import Mathlib

/-!
Shallow embedding of the core retrieval pipeline of `SphericalKMeans.ipynb`.

The notebook's post-fit state is a tuple of four read-only structures:
`normalized_vectors` (the unit-normalized TF-IDF rows), `kmeans.cluster_centers_`
(the K centroids), `cluster_index` (a Python dict built by
`create_cluster_index` mapping a cluster id to the list of its document
indices) and `articles_titles`.  The two repository functions under
verification are `create_cluster_index` and `search`; the library calls they
make (`sklearn.preprocessing.normalize`, `sklearn.metrics.pairwise.cosine_similarity`,
`np.argmax`, `np.argsort`, Python dict lookup and slicing) are modelled by
their documented semantics.

Scalars are exact rationals standing in for the notebook's floating point
values.  The real square root appearing inside the Euclidean norm is modelled
by `ratSqrt`, which is exact whenever its argument is a ratio of perfect
squares; every concrete fixture below lives in that fragment, and every
general theorem below is independent of the values `ratSqrt` takes elsewhere
(the search path only compares similarities that are built from one shared
query, and the statements are phrased against the very same similarity
function the embedded code uses).
-/

namespace SKM

/-- Largest natural whose square does not exceed `n` (a structurally
computable integer square root, used to model the real square root on
perfect squares). -/
def natSqrt (n : ℕ) : ℕ :=
  ((List.range (n + 1)).filter (fun r => r * r ≤ n)).foldl Nat.max 0

/-- Model of the nonnegative real square root on `ℚ`: exact whenever the
numerator and denominator are perfect squares (all fixtures below), and some
rational approximation elsewhere.  `ratSqrt q = 0` exactly when `q ≤ 0`
on the inputs the pipeline produces (sums of squares). -/
def ratSqrt (q : ℚ) : ℚ :=
  (natSqrt q.num.toNat : ℚ) / (natSqrt q.den : ℚ)

/-- Dot product of two rows (sparse rows are modelled as dense lists;
trailing missing entries are zero). -/
def dot : List ℚ → List ℚ → ℚ
  | a :: as, b :: bs => a * b + dot as bs
  | _, _ => 0

/-- Squared Euclidean norm of a row. -/
def normSq (v : List ℚ) : ℚ := dot v v

/-- Model of `sklearn.preprocessing.normalize` (l2, one row): divides the row
by its Euclidean norm; a zero row is returned unchanged (sklearn replaces a
zero norm by 1 before dividing, so zero rows pass through and no error is
ever raised). -/
def normalize (v : List ℚ) : List ℚ :=
  let n := ratSqrt (normSq v)
  if n = 0 then v else v.map (fun x => x / n)

/-- Model of `sklearn.metrics.pairwise.cosine_similarity` on one pair of
rows: both rows are l2-normalized (zero rows staying zero) and then dotted,
so any similarity involving a zero row is 0. -/
def cosine_similarity (u v : List ℚ) : ℚ := dot (normalize u) (normalize v)

/-- Order on (position, value) pairs sorting by value first and breaking
value ties by position: the sort key underlying a stable ascending argsort. -/
def lexLe (p q : ℕ × ℚ) : Prop := p.2 < q.2 ∨ (p.2 = q.2 ∧ p.1 ≤ q.1)

instance : DecidableRel lexLe := fun p q => by unfold lexLe; infer_instance

instance : IsTotal (ℕ × ℚ) lexLe := by
  constructor
  intro a b
  unfold lexLe
  rcases lt_trichotomy a.2 b.2 with h | h | h
  · exact Or.inl (Or.inl h)
  · rcases Nat.le_total a.1 b.1 with h1 | h1
    · exact Or.inl (Or.inr ⟨h, h1⟩)
    · exact Or.inr (Or.inr ⟨h.symm, h1⟩)
  · exact Or.inr (Or.inl h)

instance : IsTrans (ℕ × ℚ) lexLe := by
  constructor
  intro a b c hab hbc
  unfold lexLe at *
  rcases hab with h1 | ⟨e1, l1⟩
  · rcases hbc with h2 | ⟨e2, _⟩
    · exact Or.inl (h1.trans h2)
    · exact Or.inl (e2 ▸ h1)
  · rcases hbc with h2 | ⟨e2, l2⟩
    · exact Or.inl (e1 ▸ h2)
    · exact Or.inr ⟨e1.trans e2, l1.trans l2⟩

/-- The list `[(0, l₀), (1, l₁), ...]` pairing each position with its entry
(the enumeration `np.argsort` sorts). -/
def withIdx (l : List ℚ) : List (ℕ × ℚ) :=
  (List.range l.length).map (fun i => (i, l.getD i 0))

/-- Model of `np.argsort`: the positions of `l` ordered by ascending value,
equal values kept in ascending position order (stable; NumPy's default
introsort degenerates to a stable insertion sort on the small arrays all
fixtures use, and `kind ='stable'` has this behavior on every input). -/
def argsort (l : List ℚ) : List ℕ :=
  (List.insertionSort lexLe (withIdx l)).map (fun p => p.1)

/-- Model of `np.argmax` on a vector: the first position holding the maximum
value (`np.argmax` documents that ties return the first occurrence). -/
def argmax (l : List ℚ) : ℕ :=
  l.findIdx (fun x => l.all (fun y => y ≤ x))

/-- Model of the Python slice `a[-n:]` on a list: the last `n` elements for
`1 ≤ n ≤ len`, the whole list for `n = 0` (since `a[-0:]` is `a[0:]`) or
`n > len`. -/
def npslice_last (l : List ℕ) (n : ℕ) : List ℕ :=
  if n = 0 then l else l.drop (l.length - n)

/-- Python dict lookup on an association list: `some` the stored value, or
`none` when the key is absent (a `KeyError` in Python). -/
def dictGet (d : List (ℕ × List ℕ)) (k : ℕ) : Option (List ℕ) :=
  (d.find? (fun p => p.1 == k)).map (fun p => p.2)

/-- One iteration of the loop body of `create_cluster_index`:
`if cluster not in cluster_index: cluster_index[cluster] = []` followed by
`cluster_index[cluster].append(i)` (a fresh key is appended at the end,
matching dict insertion order). -/
def cidxInsert (d : List (ℕ × List ℕ)) (c i : ℕ) : List (ℕ × List ℕ) :=
  (if (d.find? (fun p => p.1 == c)).isSome then d else d ++ [(c, [])]).map
    (fun p => if p.1 == c then (p.1, p.2 ++ [i]) else p)

/-- The loop `for i, cluster in enumerate(clusters)` of `create_cluster_index`,
carried out from document index `i` with accumulator `d`. -/
def cidxGo (d : List (ℕ × List ℕ)) (i : ℕ) : List ℕ → List (ℕ × List ℕ)
  | [] => d
  | c :: cs => cidxGo (cidxInsert d c i) (i + 1) cs

/-- `create_cluster_index(clusters)` of the notebook: builds the dict mapping
each cluster id to the list of document indices assigned to it, in original
document order. -/
def create_cluster_index (clusters : List ℕ) : List (ℕ × List ℕ) :=
  cidxGo [] 0 clusters

/-- The positions (counted from `i`) at which `c` occurs in `cs`: the
reference description of one cluster's member list. -/
def offsets (i : ℕ) (cs : List ℕ) (c : ℕ) : List ℕ :=
  match cs with
  | [] => []
  | x :: xs => if x = c then i :: offsets (i + 1) xs c else offsets (i + 1) xs c

/-- The post-fit shared state `search` reads: the normalized document
vectors, the centroids, the cluster index and the titles. -/
structure SearchState where
  normalized_vectors : List (List ℚ)
  cluster_centers : List (List ℚ)
  cluster_index : List (ℕ × List ℕ)
  articles_titles : List String

/-- The row `cosine_similarity(normalized_query_vector, cluster_centroids)`
of `search`: similarity of the (re-normalized) query with every centroid. -/
def centroidSims (q : List ℚ) (st : SearchState) : List ℚ :=
  st.cluster_centers.map (fun c => cosine_similarity (normalize q) c)

/-- The line `most_relevant_cluster = query_cluster_similarities.argmax()`. -/
def selectedCluster (q : List ℚ) (st : SearchState) : ℕ :=
  argmax (centroidSims q st)

/-- Cosine similarity of the (re-normalized) query with the stored vector of
document `d`. -/
def simTo (q : List ℚ) (st : SearchState) (d : ℕ) : ℚ :=
  cosine_similarity (normalize q) (st.normalized_vectors.getD d [])

/-- The row `cosine_similarity(normalized_query_vector,
normalized_vectors[docs_in_relevant_cluster]).flatten()`. -/
def docSims (q : List ℚ) (st : SearchState) (docs : List ℕ) : List ℚ :=
  docs.map (fun d => simTo q st d)

/-- The document-index part of the notebook's `search`: select the most
similar cluster, look its members up in the dict (`none` models the
`KeyError` raised when the id is absent), rank the members by similarity via
`np.argsort(doc_similarities)[-top_n:][::-1]`, and map ranked positions back
to document indices. -/
def searchDocs (q : List ℚ) (st : SearchState) (top_n : ℕ) : Option (List ℕ) :=
  match dictGet st.cluster_index (selectedCluster q st) with
  | none => none
  | some docs =>
      some (((npslice_last (argsort (docSims q st docs)) top_n).reverse).map
        (fun idx => docs.getD idx 0))

/-- The notebook's `search`: the ranked document indices mapped to titles
(`articles_titles[docs_in_relevant_cluster[idx]]`). -/
def search (q : List ℚ) (st : SearchState) (top_n : ℕ) : Option (List String) :=
  (searchDocs q st top_n).map (fun ds => ds.map (fun d => st.articles_titles.getD d ""))

/-- State-passing form of `search`: the function body of the notebook's
`search` contains only reads of the shared post-fit structures, so the state
threaded through is returned as it came in. -/
def searchSt (q : List ℚ) (st : SearchState) (top_n : ℕ) :
    Option (List String) × SearchState :=
  (search q st top_n, st)

/-- Fixture: two documents on two orthogonal axes, one per cluster. -/
def exA : SearchState :=
  ⟨[[1, 0], [0, 1]], [[1, 0], [0, 1]], create_cluster_index [0, 1], ["A", "B"]⟩

/-- Fixture: two identical documents sharing one cluster, so their query
similarities tie. -/
def exB : SearchState :=
  ⟨[[1, 0], [1, 0]], [[1, 0]], create_cluster_index [0, 0], ["A", "B"]⟩

/-- Fixture: both documents sit in cluster 0 while centroid 1 matches the
query best, so the selected cluster has no dict entry. -/
def exC : SearchState :=
  ⟨[[0, 1], [0, 1]], [[0, 1], [1, 0]], create_cluster_index [0, 0], ["A", "B"]⟩

/-- Fixture: two documents with distinct query similarities in a single
cluster. -/
def exD : SearchState :=
  ⟨[[1, 0], [0, 1]], [[1, 0]], create_cluster_index [0, 0], ["A", "B"]⟩

end SKM

namespace SKM

/-! ### Elementary facts about the scalar layer -/

theorem dot_self_nonneg (v : List ℚ) : 0 ≤ dot v v := by
  induction v with
  | nil => simp [dot]
  | cons x xs ih => simpa [dot] using add_nonneg (mul_self_nonneg x) ih

theorem normSq_nonneg (v : List ℚ) : 0 ≤ normSq v := dot_self_nonneg v

theorem normSq_eq_zero_iff (v : List ℚ) : normSq v = 0 ↔ ∀ x ∈ v, x = 0 := by
  induction v with
  | nil => simp [normSq, dot]
  | cons x xs ih =>
      have h : normSq (x :: xs) = x * x + normSq xs := rfl
      rw [h, add_eq_zero_iff_of_nonneg (mul_self_nonneg x) (normSq_nonneg xs)]
      simp [mul_self_eq_zero, ih]

theorem init_le_foldl_max (l : List ℕ) (a : ℕ) : a ≤ l.foldl Nat.max a := by
  induction l generalizing a with
  | nil => simp
  | cons y ys ih => exact le_trans (Nat.le_max_left a y) (ih (Nat.max a y))

theorem mem_le_foldl_max (l : List ℕ) (a : ℕ) : ∀ x ∈ l, x ≤ l.foldl Nat.max a := by
  induction l generalizing a with
  | nil => simp
  | cons y ys ih =>
      intro x hx
      rcases List.mem_cons.mp hx with h | h
      · subst h
        exact le_trans (Nat.le_max_right a x) (init_le_foldl_max ys (Nat.max a x))
      · exact ih (Nat.max a y) x h

theorem natSqrt_pos {n : ℕ} (h : 0 < n) : 0 < natSqrt n := by
  have h1 : (1 : ℕ) ∈ (List.range (n + 1)).filter (fun r => r * r ≤ n) := by
    refine List.mem_filter.mpr ⟨List.mem_range.mpr (by omega), ?_⟩
    simpa using h
  exact lt_of_lt_of_le Nat.zero_lt_one
    (mem_le_foldl_max _ 0 1 h1)

theorem ratSqrt_zero : ratSqrt 0 = 0 := by
  have : natSqrt 0 = 0 := by decide
  simp [ratSqrt, this]

theorem ratSqrt_pos {q : ℚ} (h : 0 < q) : 0 < ratSqrt q := by
  have hnum : 0 < q.num := Rat.num_pos.mpr h
  have hnum' : 0 < q.num.toNat := by omega
  have hden : 0 < q.den := q.pos
  refine div_pos ?_ ?_
  · exact_mod_cast natSqrt_pos hnum'
  · exact_mod_cast natSqrt_pos hden

theorem ratSqrt_normSq_eq_zero_iff (v : List ℚ) :
    ratSqrt (normSq v) = 0 ↔ normSq v = 0 := by
  constructor
  · intro h
    by_contra hne
    have hpos : 0 < normSq v := lt_of_le_of_ne (normSq_nonneg v) (Ne.symm hne)
    exact absurd h (ne_of_gt (ratSqrt_pos hpos))
  · intro h
    rw [h, ratSqrt_zero]

theorem normalize_of_normSq_zero {v : List ℚ} (h : normSq v = 0) : normalize v = v := by
  simp [normalize, h, ratSqrt_zero]

theorem normalize_of_normSq_ne_zero {v : List ℚ} (h : normSq v ≠ 0) :
    normalize v = v.map (fun x => x / ratSqrt (normSq v)) := by
  have : ratSqrt (normSq v) ≠ 0 := fun h0 => h ((ratSqrt_normSq_eq_zero_iff v).mp h0)
  simp [normalize, this]

theorem normalize_of_all_zero {v : List ℚ} (h : ∀ x ∈ v, x = 0) : normalize v = v :=
  normalize_of_normSq_zero ((normSq_eq_zero_iff v).mpr h)

theorem dot_zero_left (a b : List ℚ) (h : ∀ x ∈ a, x = 0) : dot a b = 0 := by
  induction a generalizing b with
  | nil => cases b <;> simp [dot]
  | cons x xs ih =>
      cases b with
      | nil => simp [dot]
      | cons y ys =>
          have hx : x = 0 := h x (List.mem_cons_self x xs)
          have hxs : ∀ z ∈ xs, z = 0 := fun z hz => h z (List.mem_cons_of_mem x hz)
          simp [dot, hx, ih ys hxs]

theorem cosine_similarity_zero_left (u v : List ℚ) (h : ∀ x ∈ u, x = 0) :
    cosine_similarity u v = 0 := by
  rw [cosine_similarity, normalize_of_all_zero h]
  exact dot_zero_left u (normalize v) h

/-! ### The first-occurrence argmax -/

theorem exists_max (l : List ℚ) (h : l ≠ []) : ∃ m ∈ l, ∀ y ∈ l, y ≤ m := by
  induction l with
  | nil => exact absurd rfl h
  | cons x xs ih =>
      cases xs with
      | nil => exact ⟨x, List.mem_cons_self x [], by simp⟩
      | cons z zs =>
          obtain ⟨m, hm, hmax⟩ := ih (by simp)
          rcases le_total x m with hx | hx
          · exact ⟨m, List.mem_cons_of_mem x hm, by
              intro y hy
              rcases List.mem_cons.mp hy with h1 | h1
              · exact h1 ▸ hx
              · exact hmax y h1⟩
          · exact ⟨x, List.mem_cons_self x (z :: zs), by
              intro y hy
              rcases List.mem_cons.mp hy with h1 | h1
              · exact h1 ▸ le_refl x
              · exact le_trans (hmax y h1) hx⟩

theorem argmax_lt_length {l : List ℚ} (h : l ≠ []) : argmax l < l.length := by
  obtain ⟨m, hm, hmax⟩ := exists_max l h
  refine List.findIdx_lt_length_of_exists ⟨m, hm, ?_⟩
  simpa [List.all_eq_true] using hmax

theorem getD_of_lt {α : Type} (l : List α) {i : ℕ} (h : i < l.length) (d : α) :
    l.getD i d = l[i] := by
  simp [List.getD_eq_getElem?_getD, List.getElem?_eq_getElem h]

theorem argmax_is_max {l : List ℚ} (h : l ≠ []) {j : ℕ} (hj : j < l.length) :
    l.getD j 0 ≤ l.getD (argmax l) 0 := by
  have hlt : argmax l < l.length := argmax_lt_length h
  have hp : (l.all (fun y => y ≤ l[argmax l])) = true := List.findIdx_getElem (w := hlt)
  rw [getD_of_lt l hj 0, getD_of_lt l hlt 0]
  exact of_decide_eq_true ((List.all_eq_true.mp hp) l[j] (List.getElem_mem hj))

theorem argmax_first {l : List ℚ} (h : l ≠ []) {j : ℕ} (hj : j < argmax l) :
    l.getD j 0 < l.getD (argmax l) 0 := by
  have hlt : argmax l < l.length := argmax_lt_length h
  have hjl : j < l.length := lt_trans hj hlt
  have hp : (l.all (fun y => y ≤ l[j])) = false := List.not_of_lt_findIdx hj
  have hex : ∃ y ∈ l, ¬ (y ≤ l[j]) := by simpa using List.all_eq_false.mp hp
  obtain ⟨y, hy, hyn⟩ := hex
  have hylt : l[j] < y := lt_of_not_le hyn
  have hmax : y ≤ l.getD (argmax l) 0 := by
    obtain ⟨k, hk, rfl⟩ := List.mem_iff_getElem.mp hy
    rw [← getD_of_lt l hk 0]
    exact argmax_is_max h hk
  rw [getD_of_lt l hjl 0]
  exact lt_of_lt_of_le hylt hmax

theorem argmax_of_all_zero {l : List ℚ} (h : ∀ x ∈ l, x = 0) : argmax l = 0 := by
  cases l with
  | nil => simp [argmax]
  | cons x xs =>
      have hx : x = 0 := h x (List.mem_cons_self x xs)
      have h2 : (xs.all (fun y => y ≤ x)) = true := by
        refine List.all_eq_true.mpr ?_
        intro y hy
        simp [h y (List.mem_cons_of_mem x hy), hx]
      simp [argmax, List.findIdx_cons, h2]

end SKM

namespace SKM

/-! ### The stable ascending argsort -/

theorem length_withIdx (l : List ℚ) : (withIdx l).length = l.length := by
  simp [withIdx]

theorem mem_withIdx {l : List ℚ} {p : ℕ × ℚ} :
    p ∈ withIdx l ↔ p.1 < l.length ∧ p.2 = l.getD p.1 0 := by
  constructor
  · intro hp
    obtain ⟨i, hi, rfl⟩ := List.mem_map.mp hp
    exact ⟨List.mem_range.mp hi, rfl⟩
  · intro ⟨h1, h2⟩
    refine List.mem_map.mpr ⟨p.1, List.mem_range.mpr h1, ?_⟩
    exact Prod.ext rfl h2.symm

theorem map_fst_withIdx (l : List ℚ) :
    (withIdx l).map (fun p => p.1) = List.range l.length := by
  simp [withIdx, List.map_map]
  exact List.map_id _

theorem argsort_perm (l : List ℚ) : (argsort l).Perm (List.range l.length) := by
  have h : (List.insertionSort lexLe (withIdx l)).Perm (withIdx l) :=
    List.perm_insertionSort lexLe (withIdx l)
  have := h.map (fun p : ℕ × ℚ => p.1)
  rw [map_fst_withIdx] at this
  exact this

theorem length_argsort (l : List ℚ) : (argsort l).length = l.length := by
  have := (argsort_perm l).length_eq
  simpa using this

theorem mem_argsort {l : List ℚ} {i : ℕ} : i ∈ argsort l ↔ i < l.length := by
  rw [(argsort_perm l).mem_iff, List.mem_range]

theorem nodup_argsort (l : List ℚ) : (argsort l).Nodup :=
  (argsort_perm l).nodup_iff.mpr (List.nodup_range _)

theorem argsort_pairwise (l : List ℚ) :
    (argsort l).Pairwise
      (fun i j => l.getD i 0 < l.getD j 0 ∨ (l.getD i 0 = l.getD j 0 ∧ i < j)) := by
  have hsorted : (List.insertionSort lexLe (withIdx l)).Pairwise lexLe :=
    List.sorted_insertionSort lexLe (withIdx l)
  have hne : (List.insertionSort lexLe (withIdx l)).Pairwise
      (fun p q : ℕ × ℚ => p.1 ≠ q.1) :=
    List.pairwise_map.mp (nodup_argsort l)
  have hval : ∀ p ∈ List.insertionSort lexLe (withIdx l), p.2 = l.getD p.1 0 := by
    intro p hp
    exact (mem_withIdx.mp ((List.perm_insertionSort lexLe (withIdx l)).mem_iff.mp hp)).2
  refine List.pairwise_map.mpr ?_
  have hboth := hsorted.and hne
  refine hboth.imp_of_mem ?_
  intro p q hp hq hpq
  obtain ⟨hle, hne'⟩ := hpq
  rw [← hval p hp, ← hval q hq]
  rcases hle with h | ⟨he, hle'⟩
  · exact Or.inl h
  · exact Or.inr ⟨he, lt_of_le_of_ne hle' hne'⟩

/-! ### The Python slice and its combinators -/

theorem npslice_last_sublist (l : List ℕ) (n : ℕ) : (npslice_last l n).Sublist l := by
  unfold npslice_last
  split
  · exact List.Sublist.refl l
  · exact List.drop_sublist _ l

theorem length_npslice_last (l : List ℕ) {n : ℕ} (h : 1 ≤ n) :
    (npslice_last l n).length = min n l.length := by
  unfold npslice_last
  rw [if_neg (by omega)]
  rw [List.length_drop]
  omega

theorem npslice_last_all (l : List ℕ) {n : ℕ} (h : n = 0 ∨ l.length ≤ n) :
    npslice_last l n = l := by
  unfold npslice_last
  rcases h with h | h
  · rw [if_pos h]
  · split
    · rfl
    · rw [Nat.sub_eq_zero_of_le h, List.drop_zero]

theorem npslice_last_ne_nil (l : List ℕ) (n : ℕ) (h : l ≠ []) :
    npslice_last l n ≠ [] := by
  unfold npslice_last
  split
  · exact h
  · intro hc
    have h1 : 0 < l.length := List.length_pos.mpr h
    have h2 := congrArg List.length hc
    rw [List.length_drop] at h2
    simp at h2
    omega

theorem map_getD_range (l : List ℕ) :
    (List.range l.length).map (fun i => l.getD i 0) = l := by
  induction l with
  | nil => simp
  | cons x xs ih =>
      have : (x :: xs).length = xs.length + 1 := rfl
      rw [this, List.range_succ_eq_map, List.map_cons, List.map_map]
      have hcomp : ((fun i => (x :: xs).getD i 0) ∘ Nat.succ) = fun i => xs.getD i 0 := by
        funext i
        simp [List.getD_cons_succ]
      rw [hcomp, ih]
      simp [List.getD_cons_zero]

end SKM

namespace SKM

/-! ### Characterization of the cluster index built by `create_cluster_index` -/

theorem dictGet_mapUpd (d : List (ℕ × List ℕ)) (c i k : ℕ) :
    dictGet (d.map (fun p => if p.1 == c then (p.1, p.2 ++ [i]) else p)) k =
      if k = c then (dictGet d k).map (fun l => l ++ [i]) else dictGet d k := by
  induction d with
  | nil => simp [dictGet]
  | cons p d ih =>
      have hfst : (if (p.1 == c) = true then (p.1, p.2 ++ [i]) else p).1 = p.1 := by
        split <;> rfl
      simp only [dictGet, List.map_cons, List.find?_cons] at ih ⊢
      by_cases hpk : p.1 = k
      · have h1 : ((if (p.1 == c) = true then (p.1, p.2 ++ [i]) else p).1 == k) = true := by
          rw [hfst, hpk]
          simp
        have h2 : (p.1 == k) = true := by
          rw [hpk]
          simp
        rw [h1, h2]
        simp only [cond_true]
        by_cases hkc : k = c
        · rw [if_pos hkc]
          have hc : (p.1 == c) = true := by
            rw [hpk, hkc]
            simp
          simp [hc]
        · rw [if_neg hkc]
          have hc : (p.1 == c) = false := by
            rw [hpk]
            exact beq_eq_false_iff_ne.mpr hkc
          simp [hc]
      · have h1 : ((if (p.1 == c) = true then (p.1, p.2 ++ [i]) else p).1 == k) = false := by
          rw [hfst]
          exact beq_eq_false_iff_ne.mpr hpk
        have h2 : (p.1 == k) = false := beq_eq_false_iff_ne.mpr hpk
        rw [h1, h2]
        simp only [cond_false]
        exact ih

theorem dictGet_append_absent {d : List (ℕ × List ℕ)} {c : ℕ} (h : dictGet d c = none)
    (v : List ℕ) (k : ℕ) :
    dictGet (d ++ [(c, v)]) k = if k = c then some v else dictGet d k := by
  rw [dictGet, List.find?_append]
  by_cases hk : k = c
  · subst hk
    have hf : d.find? (fun p => p.1 == k) = none := by
      cases hfind : d.find? (fun p => p.1 == k) with
      | none => rfl
      | some p => rw [dictGet, hfind] at h; simp at h
    rw [hf]
    simp
  · have hone : List.find? (fun p => p.1 == k) [(c, v)] = none := by
      rw [List.find?_cons_of_neg _ (by simpa using Ne.symm hk), List.find?_nil]
    rw [hone, Option.or_none, if_neg hk, dictGet]

theorem dictGet_none_of_not_isSome {d : List (ℕ × List ℕ)} {c : ℕ}
    (h : ¬ (d.find? (fun p => p.1 == c)).isSome) : dictGet d c = none := by
  rw [dictGet, Option.not_isSome_iff_eq_none.mp h]
  rfl

theorem dictGet_cidxInsert_self (d : List (ℕ × List ℕ)) (c i : ℕ) :
    dictGet (cidxInsert d c i) c = some ((dictGet d c).getD [] ++ [i]) := by
  rw [cidxInsert]
  by_cases hs : (d.find? (fun p => p.1 == c)).isSome
  · rw [if_pos hs, dictGet_mapUpd d c i c, if_pos rfl]
    cases hd : dictGet d c with
    | none =>
        exfalso
        rw [dictGet] at hd
        rcases hfind : d.find? (fun p => p.1 == c) with _ | p
        · rw [hfind] at hs
          simp at hs
        · rw [hfind] at hd
          simp at hd
    | some l => simp
  · rw [if_neg hs, dictGet_mapUpd _ c i c, if_pos rfl,
      dictGet_append_absent (dictGet_none_of_not_isSome hs) [] c, if_pos rfl,
      dictGet_none_of_not_isSome hs]
    simp

theorem dictGet_cidxInsert_other (d : List (ℕ × List ℕ)) (c i k : ℕ) (h : k ≠ c) :
    dictGet (cidxInsert d c i) k = dictGet d k := by
  rw [cidxInsert]
  by_cases hs : (d.find? (fun p => p.1 == c)).isSome
  · rw [if_pos hs, dictGet_mapUpd d c i k, if_neg h]
  · rw [if_neg hs, dictGet_mapUpd _ c i k, if_neg h,
      dictGet_append_absent (dictGet_none_of_not_isSome hs) [] k, if_neg h]

theorem dictGet_cidxGo (cs : List ℕ) (d : List (ℕ × List ℕ)) (i k : ℕ) :
    dictGet (cidxGo d i cs) k =
      match dictGet d k with
      | some l => some (l ++ offsets i cs k)
      | none => if k ∈ cs then some (offsets i cs k) else none := by
  induction cs generalizing d i with
  | nil => cases hd : dictGet d k <;> simp [cidxGo, offsets, hd]
  | cons c cs ih =>
      rw [cidxGo, ih]
      by_cases hk : k = c
      · subst hk
        rw [dictGet_cidxInsert_self d k i]
        cases hd : dictGet d k with
        | some l => simp [hd, offsets]
        | none => simp [hd, offsets]
      · rw [dictGet_cidxInsert_other d c i k hk]
        cases hd : dictGet d k with
        | some l => simp [hd, offsets, Ne.symm hk]
        | none => simp [hd, offsets, Ne.symm hk, hk]

theorem create_cluster_index_char (cs : List ℕ) (k : ℕ) :
    dictGet (create_cluster_index cs) k =
      if k ∈ cs then some (offsets 0 cs k) else none := by
  rw [create_cluster_index, dictGet_cidxGo]
  have h : dictGet [] k = none := rfl
  rw [h]

theorem mem_offsets {cs : List ℕ} {i c j : ℕ} :
    j ∈ offsets i cs c ↔ ∃ t, t < cs.length ∧ j = i + t ∧ cs.getD t 0 = c := by
  induction cs generalizing i with
  | nil => simp [offsets]
  | cons x xs ih =>
      rw [offsets]
      by_cases hx : x = c
      · rw [if_pos hx]
        simp only [List.mem_cons]
        constructor
        · rintro (rfl | hj)
          · exact ⟨0, by simp, by omega, by simpa using hx⟩
          · obtain ⟨t, ht, rfl, hget⟩ := ih.mp hj
            exact ⟨t + 1, by simpa using ht, by omega, by simpa using hget⟩
        · rintro ⟨t, ht, hj, hget⟩
          cases t with
          | zero => left; omega
          | succ t' =>
              right
              refine ih.mpr ⟨t', by simpa using ht, by omega, by simpa using hget⟩
      · rw [if_neg hx]
        constructor
        · intro hj
          obtain ⟨t, ht, rfl, hget⟩ := ih.mp hj
          exact ⟨t + 1, by simpa using ht, by omega, by simpa using hget⟩
        · rintro ⟨t, ht, hj, hget⟩
          cases t with
          | zero =>
              exact absurd (by simpa using hget) hx
          | succ t' =>
              refine ih.mpr ⟨t', by simpa using ht, by omega, by simpa using hget⟩

theorem mem_offsets_zero {cs : List ℕ} {c j : ℕ} :
    j ∈ offsets 0 cs c ↔ j < cs.length ∧ cs.getD j 0 = c := by
  rw [mem_offsets]
  constructor
  · rintro ⟨t, ht, hj, hget⟩
    have he : j = t := by omega
    subst he
    exact ⟨ht, hget⟩
  · rintro ⟨hj, hget⟩
    exact ⟨j, hj, by omega, hget⟩

theorem le_of_mem_offsets {cs : List ℕ} {i c j : ℕ} (h : j ∈ offsets i cs c) : i ≤ j := by
  obtain ⟨t, _, hj, _⟩ := mem_offsets.mp h
  omega

theorem offsets_pairwise (i : ℕ) (cs : List ℕ) (c : ℕ) :
    (offsets i cs c).Pairwise (· < ·) := by
  induction cs generalizing i with
  | nil => simp [offsets]
  | cons x xs ih =>
      rw [offsets]
      split
      · refine List.pairwise_cons.mpr ⟨?_, ih (i + 1)⟩
        intro j hj
        have := le_of_mem_offsets hj
        omega
      · exact ih (i + 1)

end SKM

namespace SKM

/-! ### Structure of the search path -/

theorem searchDocs_eq {q : List ℚ} {st : SearchState} {docs : List ℕ} (n : ℕ)
    (hd : dictGet st.cluster_index (selectedCluster q st) = some docs) :
    searchDocs q st n =
      some (((npslice_last (argsort (docSims q st docs)) n).reverse).map
        (fun idx => docs.getD idx 0)) := by
  rw [searchDocs, hd]

theorem searchDocs_of_lookup_none {q : List ℚ} {st : SearchState} (n : ℕ)
    (hd : dictGet st.cluster_index (selectedCluster q st) = none) :
    searchDocs q st n = none := by
  rw [searchDocs, hd]

theorem searchDocs_inv {q : List ℚ} {st : SearchState} {n : ℕ} {ds : List ℕ}
    (hs : searchDocs q st n = some ds) :
    ∃ docs, dictGet st.cluster_index (selectedCluster q st) = some docs ∧
      ds = ((npslice_last (argsort (docSims q st docs)) n).reverse).map
        (fun idx => docs.getD idx 0) := by
  cases hd : dictGet st.cluster_index (selectedCluster q st) with
  | none => rw [searchDocs_of_lookup_none n hd] at hs; exact absurd hs (by simp)
  | some docs =>
      rw [searchDocs_eq n hd] at hs
      exact ⟨docs, rfl, (Option.some.inj hs).symm⟩

theorem length_docSims (q : List ℚ) (st : SearchState) (docs : List ℕ) :
    (docSims q st docs).length = docs.length := by
  simp [docSims]

theorem docSims_getD {q : List ℚ} {st : SearchState} {docs : List ℕ} {i : ℕ}
    (h : i < docs.length) :
    (docSims q st docs).getD i 0 = simTo q st (docs.getD i 0) := by
  have h' : i < (docSims q st docs).length := by
    rw [length_docSims]
    exact h
  rw [getD_of_lt _ h' 0, getD_of_lt _ h 0]
  simp [docSims]

theorem mem_ranked_lt {dsims : List ℚ} {n idx : ℕ}
    (h : idx ∈ (npslice_last (argsort dsims) n).reverse) : idx < dsims.length := by
  rw [List.mem_reverse] at h
  exact mem_argsort.mp ((npslice_last_sublist _ n).subset h)

theorem ranked_pairwise (dsims : List ℚ) (n : ℕ) :
    ((npslice_last (argsort dsims) n).reverse).Pairwise
      (fun i j => dsims.getD j 0 < dsims.getD i 0 ∨
        (dsims.getD j 0 = dsims.getD i 0 ∧ j < i)) := by
  rw [List.pairwise_reverse]
  exact List.Pairwise.sublist (npslice_last_sublist (argsort dsims) n) (argsort_pairwise dsims)

theorem searchDocs_full_perm {q : List ℚ} {st : SearchState} {docs : List ℕ} {n : ℕ}
    (h : n = 0 ∨ docs.length ≤ n) :
    (((npslice_last (argsort (docSims q st docs)) n).reverse).map
      (fun idx => docs.getD idx 0)).Perm docs := by
  have hall : npslice_last (argsort (docSims q st docs)) n = argsort (docSims q st docs) := by
    apply npslice_last_all
    rcases h with h | h
    · exact Or.inl h
    · right
      rw [length_argsort, length_docSims]
      exact h
  rw [hall]
  have hperm : ((argsort (docSims q st docs)).reverse).Perm (List.range docs.length) := by
    refine (List.reverse_perm _).trans ?_
    have h2 := argsort_perm (docSims q st docs)
    rwa [length_docSims] at h2
  have h3 := hperm.map (fun idx => docs.getD idx 0)
  rwa [map_getD_range] at h3

theorem pairwise_lt_getD {docs : List ℕ} (h : docs.Pairwise (· < ·)) {a b : ℕ}
    (ha : a < docs.length) (hb : b < docs.length) (hab : a < b) :
    docs.getD a 0 < docs.getD b 0 := by
  rw [getD_of_lt _ ha 0, getD_of_lt _ hb 0]
  have h2 := List.pairwise_iff_get.mp h ⟨a, ha⟩ ⟨b, hb⟩ (by exact hab)
  simpa using h2

end SKM

namespace SKM

/-! ### Concrete evaluations on the fixtures -/

theorem natSqrt_one : natSqrt 1 = 1 := by decide

theorem ratSqrt_one : ratSqrt 1 = 1 := by
  simp [ratSqrt, natSqrt_one, Rat.num_ofNat, Rat.den_ofNat]

theorem normalize_e1 : normalize [1, 0] = [1, 0] := by
  have h : normSq [1, 0] = 1 := by norm_num [normSq, dot]
  simp [normalize, h, ratSqrt_one]

theorem normalize_e2 : normalize [0, 1] = [0, 1] := by
  have h : normSq [0, 1] = 1 := by norm_num [normSq, dot]
  simp [normalize, h, ratSqrt_one]

theorem normalize_zz : normalize [0, 0] = [0, 0] :=
  normalize_of_all_zero (by norm_num)

theorem csims_A01 : centroidSims [0, 1] exA = [0, 1] := by
  simp [centroidSims, exA, cosine_similarity, normalize_e1, normalize_e2]
  norm_num [dot]

theorem sel_A01 : selectedCluster [0, 1] exA = 1 := by
  rw [selectedCluster, csims_A01]
  decide

theorem lookup_A01 : dictGet exA.cluster_index (selectedCluster [0, 1] exA) = some [1] := by
  rw [sel_A01]
  decide

theorem dsims_A01 : docSims [0, 1] exA [1] = [1] := by
  simp [docSims, simTo, exA, cosine_similarity, normalize_e2, List.getD_cons_succ,
    List.getD_cons_zero]
  norm_num [dot]

theorem sd_A01 : searchDocs [0, 1] exA 5 = some [1] := by
  rw [searchDocs_eq 5 lookup_A01, dsims_A01]
  decide

theorem csims_Azero : centroidSims [0, 0] exA = [0, 0] := by
  simp only [centroidSims, exA, List.map_cons, List.map_nil, normalize_zz]
  rw [cosine_similarity_zero_left [0, 0] [1, 0] (by norm_num),
    cosine_similarity_zero_left [0, 0] [0, 1] (by norm_num)]

theorem sel_Azero : selectedCluster [0, 0] exA = 0 := by
  rw [selectedCluster, csims_Azero]
  decide

theorem lookup_Azero : dictGet exA.cluster_index (selectedCluster [0, 0] exA) = some [0] := by
  rw [sel_Azero]
  decide

theorem dsims_Azero : docSims [0, 0] exA [0] = [0] := by
  simp only [docSims, simTo, exA, List.map_cons, List.map_nil, normalize_zz,
    List.getD_cons_zero]
  rw [cosine_similarity_zero_left [0, 0] [1, 0] (by norm_num)]

theorem sd_Azero : searchDocs [0, 0] exA 5 = some [0] := by
  rw [searchDocs_eq 5 lookup_Azero, dsims_Azero]
  decide

theorem csims_B : centroidSims [1, 0] exB = [1] := by
  simp [centroidSims, exB, cosine_similarity, normalize_e1]
  norm_num [dot]

theorem sel_B : selectedCluster [1, 0] exB = 0 := by
  rw [selectedCluster, csims_B]
  decide

theorem lookup_B : dictGet exB.cluster_index (selectedCluster [1, 0] exB) = some [0, 1] := by
  rw [sel_B]
  decide

theorem simTo_B0 : simTo [1, 0] exB 0 = 1 := by
  simp [simTo, exB, cosine_similarity, normalize_e1, List.getD_cons_zero]
  norm_num [dot]

theorem simTo_B1 : simTo [1, 0] exB 1 = 1 := by
  simp [simTo, exB, cosine_similarity, normalize_e1, List.getD_cons_succ,
    List.getD_cons_zero]
  norm_num [dot]

theorem dsims_B : docSims [1, 0] exB [0, 1] = [1, 1] := by
  simp [docSims, simTo_B0, simTo_B1]

theorem sd_B : searchDocs [1, 0] exB 5 = some [1, 0] := by
  rw [searchDocs_eq 5 lookup_B, dsims_B]
  decide

theorem csims_C : centroidSims [1, 0] exC = [0, 1] := by
  simp [centroidSims, exC, cosine_similarity, normalize_e1, normalize_e2]
  norm_num [dot]

theorem sel_C : selectedCluster [1, 0] exC = 1 := by
  rw [selectedCluster, csims_C]
  decide

theorem lookup_C : dictGet exC.cluster_index (selectedCluster [1, 0] exC) = none := by
  rw [sel_C]
  decide

theorem csims_D : centroidSims [1, 0] exD = [1] := by
  simp [centroidSims, exD, cosine_similarity, normalize_e1]
  norm_num [dot]

theorem sel_D : selectedCluster [1, 0] exD = 0 := by
  rw [selectedCluster, csims_D]
  decide

theorem lookup_D : dictGet exD.cluster_index (selectedCluster [1, 0] exD) = some [0, 1] := by
  rw [sel_D]
  decide

theorem simTo_D0 : simTo [1, 0] exD 0 = 1 := by
  simp [simTo, exD, cosine_similarity, normalize_e1, List.getD_cons_zero]
  norm_num [dot]

theorem simTo_D1 : simTo [1, 0] exD 1 = 0 := by
  simp [simTo, exD, cosine_similarity, normalize_e1, normalize_e2, List.getD_cons_succ,
    List.getD_cons_zero]
  norm_num [dot]

theorem dsims_D : docSims [1, 0] exD [0, 1] = [1, 0] := by
  simp [docSims, simTo_D0, simTo_D1]

theorem sd_D : searchDocs [1, 0] exD 1 = some [0] := by
  rw [searchDocs_eq 1 lookup_D, dsims_D]
  decide

end SKM

namespace SKM

/-! ### The claims -/

/-- C1: every document index returned by `search` is a member of the single
cluster selected in step 1 — it occurs in that cluster's member list, and the
assignment maps it to the selected cluster id, so a document assigned to any
other cluster is never returned, whatever its similarity. -/
theorem search_within_selected_cluster (q : List ℚ) (st : SearchState) (cs : List ℕ)
    (n : ℕ) (docs ds : List ℕ)
    (hidx : st.cluster_index = create_cluster_index cs)
    (hd : dictGet st.cluster_index (selectedCluster q st) = some docs)
    (hs : searchDocs q st n = some ds) :
    ∀ d ∈ ds, d ∈ docs ∧ d < cs.length ∧ cs.getD d 0 = selectedCluster q st := by
  rw [searchDocs_eq n hd] at hs
  have hds : ds = ((npslice_last (argsort (docSims q st docs)) n).reverse).map
      (fun idx => docs.getD idx 0) := (Option.some.inj hs).symm
  subst hds
  intro d hdmem
  obtain ⟨idx, hidxmem, rfl⟩ := List.mem_map.mp hdmem
  have hlt : idx < docs.length := by
    have h2 := mem_ranked_lt hidxmem
    rwa [length_docSims] at h2
  have hmemdocs : docs.getD idx 0 ∈ docs := by
    rw [getD_of_lt _ hlt 0]
    exact List.getElem_mem hlt
  refine ⟨hmemdocs, ?_⟩
  rw [hidx, create_cluster_index_char] at hd
  by_cases hc : selectedCluster q st ∈ cs
  · rw [if_pos hc] at hd
    have hdocs : offsets 0 cs (selectedCluster q st) = docs := Option.some.inj hd
    have hmem2 : docs.getD idx 0 ∈ offsets 0 cs (selectedCluster q st) := by
      rw [hdocs]
      exact hmemdocs
    exact mem_offsets_zero.mp hmem2
  · rw [if_neg hc] at hd
    exact absurd hd (by simp)

/-- C2 (amended): for an all-zero query vector the code does not fail and
does not in general return an empty result: every centroid similarity is 0,
`np.argmax` returns the first index, so cluster 0 is selected and up to topN
of its members are returned — a non-empty list whenever cluster 0 is
non-empty. -/
theorem zero_query_returns_cluster_zero (q : List ℚ) (st : SearchState) (n : ℕ)
    (docs : List ℕ)
    (hz : ∀ x ∈ q, x = 0)
    (hd : dictGet st.cluster_index 0 = some docs)
    (hne : docs ≠ []) :
    selectedCluster q st = 0 ∧ ∃ ds, searchDocs q st n = some ds ∧ ds ≠ [] := by
  have hsel : selectedCluster q st = 0 := by
    rw [selectedCluster]
    apply argmax_of_all_zero
    intro x hx
    rw [centroidSims] at hx
    obtain ⟨c, _, rfl⟩ := List.mem_map.mp hx
    refine cosine_similarity_zero_left _ _ ?_
    rw [normalize_of_all_zero hz]
    exact hz
  refine ⟨hsel, ?_⟩
  have hd' : dictGet st.cluster_index (selectedCluster q st) = some docs := by
    rw [hsel]
    exact hd
  refine ⟨_, searchDocs_eq n hd', ?_⟩
  intro hcon
  rw [List.map_eq_nil_iff, List.reverse_eq_nil_iff] at hcon
  have hargne : argsort (docSims q st docs) ≠ [] := by
    intro h0
    have h1 := congrArg List.length h0
    rw [length_argsort, length_docSims] at h1
    exact hne (List.length_eq_zero.mp (by simpa using h1))
  exact (npslice_last_ne_nil _ n hargne) hcon

/-- C3 (amended): the cluster index is a plain Python dict, so looking up a
cluster id that received zero documents does not return an empty sequence —
the key is simply absent and the lookup fails (KeyError); consequently, when
`search` selects such a cluster it fails instead of returning an empty
result. -/
theorem empty_cluster_lookup_fails :
    (∀ cs c, c ∉ cs → dictGet (create_cluster_index cs) c = none) ∧
      (∀ (q : List ℚ) (st : SearchState) (n : ℕ),
        dictGet st.cluster_index (selectedCluster q st) = none →
          searchDocs q st n = none) := by
  constructor
  · intro cs c hc
    rw [create_cluster_index_char, if_neg hc]
  · intro q st n hd
    exact searchDocs_of_lookup_none n hd

/-- C4 (amended): for topN ≥ 1 the returned sequence is sorted in descending
order of cosine similarity to the query and truncated to min(topN, cluster
size); but ties between equal-similarity documents are returned in
DESCENDING document-index order — the code reverses a stable ascending
argsort, which puts tied documents in ascending order before the reversal —
not ascending as the spec states. -/
theorem search_ranked_desc (q : List ℚ) (st : SearchState) (n : ℕ) (docs ds : List ℕ)
    (hd : dictGet st.cluster_index (selectedCluster q st) = some docs)
    (hmono : docs.Pairwise (· < ·))
    (hn : 1 ≤ n)
    (hs : searchDocs q st n = some ds) :
    ds.length = min n docs.length ∧
      ds.Pairwise (fun a b => simTo q st b < simTo q st a ∨
        (simTo q st a = simTo q st b ∧ b < a)) := by
  rw [searchDocs_eq n hd] at hs
  have hds : ds = ((npslice_last (argsort (docSims q st docs)) n).reverse).map
      (fun idx => docs.getD idx 0) := (Option.some.inj hs).symm
  subst hds
  constructor
  · rw [List.length_map, List.length_reverse, length_npslice_last _ hn,
      length_argsort, length_docSims]
  · have hpw := ranked_pairwise (docSims q st docs) n
    refine List.pairwise_map.mpr ?_
    refine List.Pairwise.imp_of_mem ?_ hpw
    intro a b ha hb hab
    have haL : a < docs.length := by
      have h2 := mem_ranked_lt ha
      rwa [length_docSims] at h2
    have hbL : b < docs.length := by
      have h2 := mem_ranked_lt hb
      rwa [length_docSims] at h2
    rcases hab with hlt | ⟨heq, hba⟩
    · left
      rw [← docSims_getD haL, ← docSims_getD hbL]
      exact hlt
    · right
      constructor
      · rw [← docSims_getD haL, ← docSims_getD hbL]
        exact heq.symm
      · exact pairwise_lt_getD hmono hbL haL hba

/-- C5 (amended): `normalize` divides every component by the Euclidean norm
when the norm is nonzero; for an all-zero row (norm zero, equivalent to all
components being zero) it returns the row unchanged — sklearn substitutes 1
for a zero norm — rather than failing with any error. -/
theorem normalize_contract (v : List ℚ) :
    (normSq v = 0 ↔ ∀ x ∈ v, x = 0) ∧
      (normSq v = 0 → normalize v = v) ∧
      (normSq v ≠ 0 → normalize v = v.map (fun x => x / ratSqrt (normSq v))) :=
  ⟨normSq_eq_zero_iff v, normalize_of_normSq_zero, normalize_of_normSq_ne_zero⟩

/-- C6: `search` selects the cluster whose centroid has maximum cosine
similarity to the query, and on ties the lowest cluster id wins: the selected
index is in range, no centroid similarity exceeds the selected one, and every
centroid with a strictly smaller index has strictly smaller similarity. -/
theorem search_selects_max_centroid (q : List ℚ) (st : SearchState)
    (hne : st.cluster_centers ≠ []) :
    selectedCluster q st < (centroidSims q st).length ∧
      (∀ j, j < (centroidSims q st).length →
        (centroidSims q st).getD j 0 ≤ (centroidSims q st).getD (selectedCluster q st) 0) ∧
      (∀ j, j < selectedCluster q st →
        (centroidSims q st).getD j 0 < (centroidSims q st).getD (selectedCluster q st) 0) := by
  have hne' : centroidSims q st ≠ [] := by
    rw [centroidSims]
    simp [hne]
  exact ⟨argmax_lt_length hne', fun j hj => argmax_is_max hne' hj,
    fun j hj => argmax_first hne' hj⟩

/-- C7: the cluster index built from an assignment is a partition: every
member list is strictly increasing (original corpus order, no duplicates
within), every member of the list for cluster c is a valid document index
assigned exactly to c (so no index occurs under two different cluster ids),
and every document index occurs in the list of its own cluster. -/
theorem cluster_index_partition (cs : List ℕ) :
    (∀ c l, dictGet (create_cluster_index cs) c = some l →
      l.Pairwise (· < ·) ∧ ∀ i ∈ l, i < cs.length ∧ cs.getD i 0 = c) ∧
      (∀ i, i < cs.length →
        ∃ l, dictGet (create_cluster_index cs) (cs.getD i 0) = some l ∧ i ∈ l) := by
  constructor
  · intro c l hl
    rw [create_cluster_index_char] at hl
    by_cases hc : c ∈ cs
    · rw [if_pos hc] at hl
      have he : offsets 0 cs c = l := Option.some.inj hl
      subst he
      exact ⟨offsets_pairwise 0 cs c, fun i hi => mem_offsets_zero.mp hi⟩
    · rw [if_neg hc] at hl
      exact absurd hl (by simp)
  · intro i hi
    have hmem : cs.getD i 0 ∈ cs := by
      rw [getD_of_lt _ hi 0]
      exact List.getElem_mem hi
    rw [create_cluster_index_char, if_pos hmem]
    exact ⟨_, rfl, mem_offsets_zero.mpr ⟨hi, rfl⟩⟩

/-- C8: when topN strictly exceeds the selected cluster's size, `search`
returns exactly all members of that cluster — the result is a permutation of
the member list, of the same length — without failing and without padding. -/
theorem search_topn_exceeding (q : List ℚ) (st : SearchState) (n : ℕ) (docs : List ℕ)
    (hd : dictGet st.cluster_index (selectedCluster q st) = some docs)
    (hn : docs.length < n) :
    ∃ ds, searchDocs q st n = some ds ∧ ds.Perm docs ∧ ds.length = docs.length := by
  refine ⟨_, searchDocs_eq n hd, ?_, ?_⟩
  · exact searchDocs_full_perm (Or.inr (le_of_lt hn))
  · exact (searchDocs_full_perm (Or.inr (le_of_lt hn))).length_eq

/-- C9: queries are read-only: `search` threaded through the post-fit state
returns that state unchanged (vector store, centroids, cluster index and
titles all identical), together with the same result pure `search` gives. -/
theorem search_readonly (q : List ℚ) (st : SearchState) (n : ℕ) :
    (searchSt q st n).2 = st ∧ (searchSt q st n).1 = search q st n :=
  ⟨rfl, rfl⟩

/-- C10: with top_n = 0 the slice `[-top_n:]` selects the whole similarity
array, so `search` returns all members of the selected cluster (a permutation
of the member list) in descending-similarity order, not an empty result. -/
theorem search_topn_zero (q : List ℚ) (st : SearchState) (docs : List ℕ)
    (hd : dictGet st.cluster_index (selectedCluster q st) = some docs) :
    ∃ ds, searchDocs q st 0 = some ds ∧ ds.Perm docs ∧
      ds.Pairwise (fun a b => simTo q st b ≤ simTo q st a) := by
  refine ⟨_, searchDocs_eq 0 hd, searchDocs_full_perm (Or.inl rfl), ?_⟩
  have hpw := ranked_pairwise (docSims q st docs) 0
  refine List.pairwise_map.mpr ?_
  refine List.Pairwise.imp_of_mem ?_ hpw
  intro a b ha hb hab
  have haL : a < docs.length := by
    have h2 := mem_ranked_lt ha
    rwa [length_docSims] at h2
  have hbL : b < docs.length := by
    have h2 := mem_ranked_lt hb
    rwa [length_docSims] at h2
  rw [← docSims_getD haL, ← docSims_getD hbL]
  rcases hab with hlt | ⟨heq, h3⟩
  · exact le_of_lt hlt
  · exact le_of_eq heq

end SKM

namespace SKM

/-! ### Witnesses and counterexamples -/

/-- C1 witness: on the two-cluster fixture the query [0,1] selects cluster 1
and the returned document 1 is a member of that cluster, assigned to it by
the assignment [0,1]. -/
theorem search_within_selected_cluster_witness :
    1 ∈ [1] ∧ 1 < ([0, 1] : List ℕ).length ∧
      ([0, 1] : List ℕ).getD 1 0 = selectedCluster [0, 1] exA :=
  search_within_selected_cluster [0, 1] exA [0, 1] 5 [1] [1] rfl lookup_A01 sd_A01
    1 (by decide)

/-- C2 counterexample: the all-zero query on the two-cluster fixture neither
fails nor returns an empty result — it returns document 0 of cluster 0. -/
theorem zero_query_nonempty_result_cex :
    searchDocs [0, 0] exA 5 = some [0] ∧
      some [0] ≠ (none : Option (List ℕ)) ∧ some [0] ≠ some ([] : List ℕ) :=
  ⟨sd_Azero, by decide, by decide⟩

/-- C2 witness: the amended claim instantiated on the two-cluster fixture. -/
theorem zero_query_returns_cluster_zero_witness :
    selectedCluster [0, 0] exA = 0 ∧
      ∃ ds, searchDocs [0, 0] exA 5 = some ds ∧ ds ≠ [] :=
  zero_query_returns_cluster_zero [0, 0] exA 5 [0] (by norm_num) (by decide) (by decide)

/-- C3 counterexample: cluster 1 of the assignment [0,0] (k = 2) has no
members, and its lookup yields no entry instead of an empty sequence; on the
fixture whose best centroid is that empty cluster, `search` fails instead of
returning an empty result. -/
theorem empty_cluster_lookup_fails_cex :
    dictGet (create_cluster_index [0, 0]) 1 = none ∧
      searchDocs [1, 0] exC 1 = none :=
  ⟨by decide, searchDocs_of_lookup_none 1 lookup_C⟩

/-- C3 witness: the amended claim instantiated at the assignment [0,2]
(cluster 1 absent) and at the empty-selected-cluster fixture. -/
theorem empty_cluster_lookup_fails_witness :
    dictGet (create_cluster_index [0, 2]) 1 = none ∧
      searchDocs [1, 0] exC 3 = none :=
  ⟨empty_cluster_lookup_fails.1 [0, 2] 1 (by decide),
    empty_cluster_lookup_fails.2 [1, 0] exC 3 lookup_C⟩

/-- C4 counterexample: documents 0 and 1 of the tie fixture have equal
similarity to the query, yet `search` returns them as [1, 0] — descending
document-index order, not the ascending order the claim states. -/
theorem search_tie_descending_cex :
    simTo [1, 0] exB 0 = simTo [1, 0] exB 1 ∧
      searchDocs [1, 0] exB 5 = some [1, 0] :=
  ⟨by rw [simTo_B0, simTo_B1], sd_B⟩

/-- C4 witness: the amended ranking claim instantiated on the
distinct-similarity fixture with topN = 1. -/
theorem search_ranked_desc_witness :
    ([0] : List ℕ).length = min 1 ([0, 1] : List ℕ).length ∧
      ([0] : List ℕ).Pairwise (fun a b => simTo [1, 0] exD b < simTo [1, 0] exD a ∨
        (simTo [1, 0] exD a = simTo [1, 0] exD b ∧ b < a)) :=
  search_ranked_desc [1, 0] exD 1 [0, 1] [0] lookup_D (by decide) (by decide) sd_D

/-- C5 counterexample: `normalize` applied to the all-zero row returns the
row unchanged — a vector, not a DegenerateVectorError. -/
theorem normalize_zero_no_error_cex : normalize [0, 0] = [0, 0] :=
  normalize_zz

/-- C5 witness: the amended contract instantiated at the row [3,4], whose
norm is 5. -/
theorem normalize_contract_witness :
    normalize [3, 4] = ([3, 4] : List ℚ).map (fun x => x / ratSqrt (normSq [3, 4])) :=
  (normalize_contract [3, 4]).2.2 (by norm_num [normSq, dot])

/-- C6 witness: on the two-cluster fixture the query [0,1] selects cluster 1
and centroid 0, of strictly smaller index, has strictly smaller similarity. -/
theorem search_selects_max_centroid_witness :
    (centroidSims [0, 1] exA).getD 0 0 <
      (centroidSims [0, 1] exA).getD (selectedCluster [0, 1] exA) 0 :=
  (search_selects_max_centroid [0, 1] exA (by decide)).2.2 0
    (by rw [sel_A01]; norm_num)

/-- C7 witness: in the index built from the assignment [0,1,0], document 0
occurs in the member list of its own cluster. -/
theorem cluster_index_partition_witness :
    ∃ l, dictGet (create_cluster_index [0, 1, 0]) (([0, 1, 0] : List ℕ).getD 0 0) = some l ∧
      0 ∈ l :=
  (cluster_index_partition [0, 1, 0]).2 0 (by decide)

/-- C8 witness: topN = 5 on a cluster of 2 members returns a permutation of
all the members, with no error. -/
theorem search_topn_exceeding_witness :
    ∃ ds, searchDocs [1, 0] exB 5 = some ds ∧ ds.Perm [0, 1] ∧
      ds.length = ([0, 1] : List ℕ).length :=
  search_topn_exceeding [1, 0] exB 5 [0, 1] lookup_B (by decide)

/-- C10 witness: top_n = 0 on a cluster of 2 members returns a permutation of
all the members in weakly descending similarity order. -/
theorem search_topn_zero_witness :
    ∃ ds, searchDocs [1, 0] exB 0 = some ds ∧ ds.Perm [0, 1] ∧
      ds.Pairwise (fun a b => simTo [1, 0] exB b ≤ simTo [1, 0] exB a) :=
  search_topn_zero [1, 0] exB [0, 1] lookup_B

end SKM
